import Mathlib

/-!
Shallow embedding of the core of the `credentials` crate: the Secretfile
parser with environment interpolation (src/secretfile.rs), the chained
backend (src/chained.rs), the Vault client's token acquisition
(src/vault/mod.rs, src/vault/kubernetes.rs), its secret decoding and
per-path secret cache (src/vault/mod.rs), and the client facade
(src/lib.rs).  Strings are `String`/`List Char`; the process environment,
filesystem reads and the network are explicit parameters (oracles); all
fallible code returns `Except Error`.
-/

/-- Error type mirroring `Error` in src/errors.rs.  Payloads are reduced to
the fields the claims examine; IO, HTTP and URL causes are carried as
strings. -/
inductive Error where
  | credential (name : String) (cause : Error)
  | fileRead (path : String) (cause : Error)
  | ioErr (msg : String)
  | missingEntry (name : String)
  | missingKeyInPath (path : String)
  | missingKeyInSecret (secret key : String)
  | missingVaultAddr
  | missingVaultToken (cause : Error)
  | noBackend
  | noHomeDirectory
  | parse (input : String)
  | other (msg : String)
  | secretfile (cause : Error)
  | undefinedEnvironmentVariable (name : String)
  | unexpectedHttpStatus (status : Nat) (body : String)
deriving DecidableEq

/-- Location of a secret in a backend (`Location` in src/secretfile.rs). -/
inductive Location where
  | path (p : String)
  | pathWithKey (p k : String)
deriving DecidableEq

/-- The regex character class \s (whitespace), over the ASCII range used by
Secretfile lines. -/
def isSpace (c : Char) : Bool :=
  c == ' ' || c == '\t' || c == '\n' || c == '\r' || c == '\x0b' || c == '\x0c'

/-- The regex character class \S (non-whitespace). -/
def isSolid (c : Char) : Bool := !(isSpace c)

/-- First character of an interpolation/variable name: [a-zA-Z_]. -/
def identStart (c : Char) : Bool :=
  (decide ('a' ≤ c) && decide (c ≤ 'z'))
    || (decide ('A' ≤ c) && decide (c ≤ 'Z')) || c == '_'

/-- Subsequent character of an interpolation/variable name: [a-zA-Z0-9_]. -/
def identChar (c : Char) : Bool :=
  identStart c || (decide ('0' ≤ c) && decide (c ≤ '9'))

/-- Insert into a string-keyed map, overwriting an existing binding
(models `BTreeMap::insert`). -/
def mapInsert {α : Type} : List (String × α) → String → α → List (String × α)
  | [], k, v => [(k, v)]
  | (k', v') :: rest, k, v =>
    if k' = k then (k, v) :: rest else (k', v') :: mapInsert rest k v

/-- Look up in a string-keyed map (models `BTreeMap::get`). -/
def mapLookup {α : Type} : List (String × α) → String → Option α
  | [], _ => none
  | (k', v') :: rest, k => if k' = k then some v' else mapLookup rest k

/-- Accumulated result of the interpolation scan: the output characters,
the referenced variable names in order, and the referenced names that were
undefined, in order (the closure in `interpolate_env` keeps only the last
of these in `err`). -/
abbrev ScanResult := List Char × List String × List String

/-- Prepend a literal character to the scan output. -/
def scanChar (c : Char) : ScanResult → ScanResult
  | (out, refs, undefs) => (c :: out, refs, undefs)

/-- Process one matched `$NAME` or `$\x7bNAME\x7d` token: substitute the
environment value, or record the name as undefined and substitute "". -/
def scanStep (env : String → Option String) (name : String) :
    ScanResult → ScanResult
  | (out, refs, undefs) =>
    match env name with
    | some v => (v.data ++ out, name :: refs, undefs)
    | none => (out, name :: refs, name :: undefs)

/-- Try to match an interpolation token right after a `$`: either a name,
or a braced name; return the captured name and the remaining input.  This
is the alternation inside the regex of `interpolate_env`
(src/secretfile.rs lines 36-44), name branch first. -/
def scanToken : List Char → Option (String × List Char)
  | [] => none
  | c :: cs =>
    if identStart c then
      some (String.mk (c :: cs.takeWhile identChar), cs.dropWhile identChar)
    else if c = '{' then
      match cs with
      | [] => none
      | c2 :: cs2 =>
        if identStart c2 then
          match cs2.dropWhile identChar with
          | d :: after =>
            if d = '}' then
              some (String.mk (c2 :: cs2.takeWhile identChar), after)
            else none
          | [] => none
        else none
    else none

/-- Left-to-right scan of `replace_all` with the regex in `interpolate_env`
(src/secretfile.rs lines 33-71): a `$` followed by a token is replaced;
otherwise characters are copied verbatim.  Fuel-indexed (structural) so the
kernel can evaluate it; at least one character is consumed per step, so
fuel = length suffices. -/
def scanF (env : String → Option String) : Nat → List Char → ScanResult
  | 0, _ => ([], [], [])
  | _ + 1, [] => ([], [], [])
  | fuel + 1, c :: rest =>
    if c = '$' then
      match scanToken rest with
      | some (name, after) => scanStep env name (scanF env fuel after)
      | none => scanChar '$' (scanF env fuel rest)
    else scanChar c (scanF env fuel rest)

/-- Interpolate environment variables into a string (`interpolate_env` in
src/secretfile.rs): replace every token, and fail with the last undefined
variable if any referenced variable is undefined. -/
def interpolate_env (env : String → Option String) (text : List Char) :
    Except Error String :=
  let res := scanF env text.length text
  match res.2.2.getLast? with
  | none => .ok (String.mk res.1)
  | some n => .error (.undefinedEnvironmentVariable n)

/-- Names of the `$NAME` and `$\x7bNAME\x7d` tokens of a string, in order
(the variables referenced during interpolation). -/
def refsOf (env : String → Option String) (text : List Char) : List String :=
  (scanF env text.length text).2.1





/-- A parsed entry line of a Secretfile: either a variable line
(`NAME path[:key]`, is_file = false) or a file line (`>file path[:key]`,
is_file = true).  `name` and `key` are kept as raw (uninterpolated)
character lists, exactly as captured by the line regex. -/
structure Entry where
  is_file : Bool
  name : List Char
  path : List Char
  key : Option (List Char)
deriving DecidableEq

/-- Split a `path:key` token at its first colon, provided a nonempty key
follows; models the backtracking of the lazy `path` group against the
optional `:key` group in the line regex of `Secretfile::read_internal`.
Returns the characters before the first colon and those after it. -/
def splitTok : List Char → Option (List Char × List Char)
  | [] => none
  | c :: rest =>
    if c = ':' then
      if rest = [] then none else some ([], rest)
    else
      (splitTok rest).map (fun p => (c :: p.1, p.2))

/-- Decompose the right-hand-side token into the `path` and optional `key`
captures.  The first character always belongs to `path` (the lazy group
needs at least one character), and a trailing lone colon stays in `path`. -/
def splitPathKey (tok : List Char) : List Char × Option (List Char) :=
  match tok with
  | [] => ([], none)
  | c :: cs =>
    match splitTok cs with
    | none => (c :: cs, none)
    | some (a, b) => (c :: a, some b)

/-- Parse the part of an entry line after the `NAME`/`>file` capture:
mandatory whitespace, then the `path[:key]` token, then optional trailing
whitespace.  Returns `none` when the line regex does not match. -/
def parseRhs (isf : Bool) (nm : List Char) (after : List Char) :
    Option (Option Entry) :=
  if after.takeWhile isSpace = [] then none
  else if (after.dropWhile isSpace).takeWhile isSolid = [] then none
  else if ((after.dropWhile isSpace).dropWhile isSolid).all isSpace then
    some (some ⟨isf, nm,
      (splitPathKey ((after.dropWhile isSpace).takeWhile isSolid)).1,
      (splitPathKey ((after.dropWhile isSpace).takeWhile isSolid)).2⟩)
  else none

/-- Match one Secretfile line against the anchored line regex of
`Secretfile::read_internal` (src/secretfile.rs lines 118-134):
`some none` is a blank/comment line, `some (some e)` an entry line, and
`none` a line that does not match (a parse error). -/
def parseLine (line : List Char) : Option (Option Entry) :=
  if line.dropWhile isSpace = [] ∨ (line.dropWhile isSpace).head? = some '#'
  then some none
  else
    match line with
    | [] => none
    | c :: rest =>
      if c = '>' then
        if rest.takeWhile isSolid = [] then none
        else parseRhs true (rest.takeWhile isSolid) (rest.dropWhile isSolid)
      else if identStart c then
        parseRhs false (c :: rest.takeWhile identChar) (rest.dropWhile identChar)
      else none

/-- The two name-to-location maps of a `Secretfile`
(src/secretfile.rs lines 107-111). -/
structure Secretfile where
  varmap : List (String × Location)
  filemap : List (String × Location)
deriving DecidableEq

/-- Process the lines of a Secretfile in order, accumulating the maps;
the loop body of `Secretfile::read_internal` (src/secretfile.rs lines
142-165): an unmatched line is a parse error naming the line; an entry
line interpolates `path` (and, for file lines, the file name), keeps
`key` literal, and inserts into the proper map, overwriting. -/
def read_lines (env : String → Option String) (sf : Secretfile) :
    List (List Char) → Except Error Secretfile
  | [] => .ok sf
  | line :: rest =>
    match parseLine line with
    | none => .error (.parse (String.mk line))
    | some none => read_lines env sf rest
    | some (some e) =>
      match interpolate_env env e.path with
      | .error err => .error err
      | .ok p' =>
        let loc := match e.key with
          | none => Location.path p'
          | some k => Location.pathWithKey p' (String.mk k)
        if e.is_file then
          match interpolate_env env e.name with
          | .error err => .error err
          | .ok f => read_lines env ⟨sf.varmap, mapInsert sf.filemap f loc⟩ rest
        else
          read_lines env ⟨mapInsert sf.varmap (String.mk e.name) loc, sf.filemap⟩ rest

/-- Parse a whole Secretfile (`Secretfile::read_internal`), starting from
empty maps. -/
def read_internal (env : String → Option String) (lines : List (List Char)) :
    Except Error Secretfile :=
  read_lines env ⟨[], []⟩ lines

/-- Variable lookup (`SecretfileLookup::var` for `Secretfile`,
src/secretfile.rs lines 257-259). -/
def secretfile_var (sf : Secretfile) (name : String) : Option Location :=
  mapLookup sf.varmap name

/-- File lookup (`SecretfileLookup::file` for `Secretfile`,
src/secretfile.rs lines 261-263). -/
def secretfile_file (sf : Secretfile) (name : String) : Option Location :=
  mapLookup sf.filemap name




/-- Minimal JSON values, sufficient for the Vault secret wire shapes. -/
inductive Json where
  | str (s : String)
  | num (n : Nat)
  | obj (fields : List (String × Json))

/-- Decode the fields of a JSON object as a string-to-string map; fails if
any value is not a string (serde decoding of `BTreeMap<String, String>`). -/
def decodeFields : List (String × Json) → Option (List (String × String))
  | [] => some []
  | (k, v) :: rest =>
    match v with
    | .str s => (decodeFields rest).map (fun m => (k, s) :: m)
    | _ => none

/-- Decode a JSON value as a string-to-string map. -/
def decodeStringMap : Json → Option (List (String × String))
  | .obj fs => decodeFields fs
  | _ => none

/-- Encode a key-value bundle as a flat JSON object of strings. -/
def encodeMap (m : List (String × String)) : Json :=
  .obj (m.map (fun p => (p.1, Json.str p.2)))

/-- Secret data returned by a secret backend (`SecretData` in
src/vault/mod.rs lines 68-76): a flat key-value map (KVv1/Cubbyhole) or
the same map nested under a `data` key (KVv2). -/
inductive SecretData where
  | generic (map : List (String × String))
  | kvv2 (map : List (String × String))
deriving DecidableEq

/-- Key lookup inside a secret's data bag (`SecretData::get`,
src/vault/mod.rs lines 78-84): both wire shapes answer from the one map. -/
def SecretData.get (d : SecretData) (key : String) : Option String :=
  match d with
  | .generic map => mapLookup map key
  | .kvv2 map => mapLookup map key

/-- Decode `SecretData` from JSON with serde untagged semantics: first try
the flat map shape, then the nested one. -/
def SecretData.deserialize (j : Json) : Option SecretData :=
  match decodeStringMap j with
  | some m => some (.generic m)
  | none =>
    match j with
    | .obj fs =>
      match mapLookup fs "data" with
      | some inner => (decodeStringMap inner).map .kvv2
      | none => none
    | _ => none

/-- A secret retrieved from Vault (`Secret` in src/vault/mod.rs lines
55-65): the data bag plus a lease duration that defaults to 0. -/
structure Secret where
  data : SecretData
  lease_duration : Nat
deriving DecidableEq

/-- Decode a whole secret response body: the mandatory `data` field in
either wire shape, and an optional numeric `lease_duration`. -/
def Secret.deserialize (j : Json) : Option Secret :=
  match j with
  | .obj fs =>
    match mapLookup fs "data" with
    | none => none
    | some dj =>
      match SecretData.deserialize dj with
      | none => none
      | some d =>
        match mapLookup fs "lease_duration" with
        | none => some ⟨d, 0⟩
        | some (.num n) => some ⟨d, n⟩
        | some _ => none
  | _ => none

/-- The Vault client's secret cache, `secrets: BTreeMap<String, Secret>`
(src/vault/mod.rs line 95). -/
abbrev Cache := List (String × Secret)

/-- Look up `key` in a cached secret for path `path`
(src/vault/mod.rs lines 194-202). -/
def lookup_key (sec : Secret) (path key : String) : Except Error String :=
  match sec.data.get key with
  | some v => .ok v
  | none => .error (.missingKeyInSecret path key)

/-- Resolution of an optional `Location` by the Vault backend
(`Client::get_loc`, src/vault/mod.rs lines 170-208).  `fetch` is the
network oracle standing for `get_secret`.  Returns the result, the updated
cache, and the trace of store paths fetched over the network during the
call (empty or a single path). -/
def get_loc (fetch : String → Except Error Secret) (cache : Cache)
    (searched_for : String) (loc : Option Location) :
    Except Error String × Cache × List String :=
  match loc with
  | none => (.error (.missingEntry searched_for), cache, [])
  | some (.pathWithKey p k) =>
    match mapLookup cache p with
    | some sec => (lookup_key sec p k, cache, [])
    | none =>
      match fetch p with
      | .error e => (.error e, cache, [p])
      | .ok sec => (lookup_key sec p k, mapInsert cache p sec, [p])
  | some (.path p) => (.error (.missingKeyInPath p), cache, [])

/-- Run a sequence of `get_loc` resolutions against one Vault backend
instance, threading the cache; returns the final cache and the
concatenated trace of network fetches. -/
def run_get_locs (fetch : String → Except Error Secret) :
    Cache → List (String × Option Location) → Cache × List String
  | cache, [] => (cache, [])
  | cache, (s, loc) :: rest =>
    let r := get_loc fetch cache s loc
    let rec' := run_get_locs fetch r.2.1 rest
    (rec'.1, r.2.2 ++ rec'.2)

/-- One pass of the chained backend's fallback loop (`Client::var` /
`Client::file` in src/chained.rs lines 53-89): `errAcc` is the last error
seen so far and `n` counts the backends attempted. -/
def chainedGo : List (Except Error String) → Option Error → Nat →
    Except Error String × Nat
  | [], errAcc, n => (.error (errAcc.getD .noBackend), n)
  | b :: rest, _errAcc, n =>
    match b with
    | .ok v => (.ok v, n + 1)
    | .error e => chainedGo rest (some e) (n + 1)

/-- The chained backend's `var`: each element of `backends` is the result
the corresponding backend would return for this credential; the second
component is how many backends were invoked. -/
def chained_var (backends : List (Except Error String)) :
    Except Error String × Nat :=
  chainedGo backends none 0

/-- The chained backend's `file`, identical in structure to `var`
(src/chained.rs lines 74-89). -/
def chained_file (backends : List (Except Error String)) :
    Except Error String × Nat :=
  chainedGo backends none 0

/-- The facade's `Client::var` (src/lib.rs lines 116-126): delegate to the
chain and wrap any failure in a credential-level error naming the
credential. -/
def client_var (backends : List (Except Error String)) (name : String) :
    Except Error String :=
  (chained_var backends).1.mapError (fun e => .credential name e)

/-- The facade's `Client::file` (src/lib.rs lines 129-145) for a Unicode
path: delegate to the chain and wrap any failure naming the path. -/
def client_file (backends : List (Except Error String)) (path : String) :
    Except Error String :=
  (chained_file backends).1.mapError (fun e => .credential path e)

/-- Kubernetes-based token exchange (`vault_kubernetes_token` in
src/vault/kubernetes.rs lines 95-107): absent role means not applicable
(`Ok(None)`); with a role, read the service-account JWT and POST it with
the role to the auth endpoint, propagating either failure. -/
def vault_kubernetes_token (role : Option String)
    (authPathEnv : Option String) (jwtResult : Except Error String)
    (authCall : String → String → String → Except Error String) :
    Except Error (Option String) :=
  match role with
  | none => .ok none
  | some r =>
    let auth_path := authPathEnv.getD "kubernetes"
    match jwtResult with
    | .error e => .error e
    | .ok jwt =>
      match authCall auth_path r jwt with
      | .error e => .error e
      | .ok tok => .ok (some tok)

/-- Read the fallback token file at `~/.vault-token`
(src/vault/mod.rs lines 37-45). -/
def home_token (homeDir : Option String)
    (readFile : String → Except Error String) : Except Error String :=
  match homeDir with
  | none => .error .noHomeDirectory
  | some h => readFile (h ++ "/.vault-token")

/-- Token acquisition at Vault backend construction (`default_token`,
src/vault/mod.rs lines 25-50): `VAULT_TOKEN` overrides everything, then
the Kubernetes exchange if applicable, then the home token file; every
failure is wrapped in `MissingVaultToken`. -/
def default_token (envToken : Option String) (role : Option String)
    (authPathEnv : Option String) (jwtResult : Except Error String)
    (authCall : String → String → String → Except Error String)
    (homeDir : Option String) (readFile : String → Except Error String) :
    Except Error String :=
  (match envToken with
    | some t => Except.ok t
    | none =>
      match vault_kubernetes_token role authPathEnv jwtResult authCall with
      | .error e => .error e
      | .ok (some tok) => .ok tok
      | .ok none => home_token homeDir readFile).mapError
    (fun e => .missingVaultToken e)

/-- Tags for the concrete backends a chain can contain. -/
inductive BackendTag where
  | envvar
  | vault
deriving DecidableEq

/-- Whether the Vault backend is enabled (`Client::is_enabled`,
src/vault/mod.rs lines 100-102): `VAULT_ADDR` is present in the
environment. -/
def is_enabled (vaultAddr : Option String) : Bool :=
  vaultAddr.isSome

/-- Chain construction (`Client::with_default_backends`, src/chained.rs
lines 29-44): with Vault enabled, add the env backend only when override
is allowed, then the Vault backend (whose construction may fail);
otherwise the env backend alone. -/
def with_default_backends (vaultAddr : Option String)
    (allow_override : Bool) (vaultCtor : Except Error Unit) :
    Except Error (List BackendTag) :=
  if is_enabled vaultAddr then
    match vaultCtor with
    | .error e => .error e
    | .ok _ =>
      .ok (if allow_override then [.envvar, .vault] else [.vault])
  else .ok [.envvar]




/-! Helper lemmas about character classes, lists and maps. -/

theorem ne_of_class {p : Char → Bool} {c d : Char} (h : p c = true)
    (hd : p d = false) : c ≠ d := by
  intro he
  subst he
  rw [h] at hd
  cases hd

theorem isSpace_false_of_identStart {c : Char} (h : identStart c = true) :
    isSpace c = false := by
  cases hs : isSpace c with
  | false => rfl
  | true =>
    exfalso
    simp only [isSpace, Bool.or_eq_true, beq_iff_eq] at hs
    rcases hs with ((((h1 | h1) | h1) | h1) | h1) | h1 <;> subst h1 <;>
      exact absurd h (by decide)

theorem isSpace_false_of_solid {c : Char} (h : isSolid c = true) :
    isSpace c = false := by
  simpa [isSolid] using h

theorem takeWhile_eq_self_of_all {p : Char → Bool} :
    ∀ {l : List Char}, (∀ c ∈ l, p c = true) → l.takeWhile p = l := by
  intro l h
  induction l with
  | nil => rfl
  | cons a t ih =>
    rw [List.takeWhile_cons_of_pos (h a (List.mem_cons_self a t)),
      ih (fun c hc => h c (List.mem_cons_of_mem a hc))]

theorem dropWhile_eq_nil_of_all {p : Char → Bool} :
    ∀ {l : List Char}, (∀ c ∈ l, p c = true) → l.dropWhile p = [] := by
  intro l h
  induction l with
  | nil => rfl
  | cons a t ih =>
    rw [List.dropWhile_cons_of_pos (h a (List.mem_cons_self a t))]
    exact ih (fun c hc => h c (List.mem_cons_of_mem a hc))

theorem length_dropWhile_le (p : Char → Bool) :
    ∀ l : List Char, (l.dropWhile p).length ≤ l.length := by
  intro l
  induction l with
  | nil => exact Nat.le_refl _
  | cons a t ih =>
    rw [List.dropWhile_cons]
    by_cases h : p a = true
    · simp only [h, if_true]
      exact Nat.le_trans ih (Nat.le_succ _)
    · simp only [h, if_false]
      exact Nat.le_refl _

theorem mapLookup_insert_self {α : Type} (m : List (String × α)) (k : String)
    (v : α) : mapLookup (mapInsert m k v) k = some v := by
  induction m with
  | nil => simp [mapInsert, mapLookup]
  | cons kv rest ih =>
    obtain ⟨k', v'⟩ := kv
    by_cases h : k' = k
    · simp [mapInsert, mapLookup, h]
    · simp [mapInsert, mapLookup, h, ih]

theorem mapLookup_insert_ne {α : Type} (m : List (String × α))
    (k k' : String) (v : α) (h : k' ≠ k) :
    mapLookup (mapInsert m k v) k' = mapLookup m k' := by
  induction m with
  | nil => simp [mapInsert, mapLookup, Ne.symm h]
  | cons kv rest ih =>
    obtain ⟨k0, v0⟩ := kv
    by_cases h0 : k0 = k
    · subst h0
      simp [mapInsert, mapLookup, Ne.symm h]
    · simp only [mapInsert, h0, if_false]
      by_cases h1 : k0 = k'
      · simp [mapLookup, h1]
      · simp [mapLookup, h1, ih]

theorem splitTok_append (l1 l2 : List Char) (h1 : ∀ c ∈ l1, c ≠ ':')
    (h2 : l2 ≠ []) : splitTok (l1 ++ ':' :: l2) = some (l1, l2) := by
  induction l1 with
  | nil => simp [splitTok, h2]
  | cons c cs ih =>
    have hc : c ≠ ':' := h1 c (List.mem_cons_self c cs)
    simp [splitTok, hc, ih (fun x hx => h1 x (List.mem_cons_of_mem c hx))]

/-! Claim C6: a Location.path with no key always fails without touching
the network or the cache. -/

/-- C6: for every path p, resolving a Location.Path(p) (no key) through
the Vault backend's get_loc always fails with a missing-key-in-path error
naming p, performs no network fetch (empty fetch trace) and leaves the
secret cache unchanged. -/
theorem c6_path_no_key_theorem (fetch : String → Except Error Secret)
    (cache : Cache) (s p : String) :
    get_loc fetch cache s (some (Location.path p))
      = (.error (.missingKeyInPath p), cache, []) := rfl

/-! Claim C8: the two wire shapes decode to one logical bundle. -/

theorem decodeFields_encode (m : List (String × String)) :
    decodeFields (m.map (fun p => (p.1, Json.str p.2))) = some m := by
  induction m with
  | nil => rfl
  | cons kv rest ih =>
    obtain ⟨k, v⟩ := kv
    simp [decodeFields, ih]

/-- C8: for every key-value bundle m and key k, decoding a secret body
whose data is the flat map m, or the nested v2 wrapper holding m under a
`data` key, succeeds in both cases, and the resulting secret's data lookup
of k is exactly the lookup of k in m (none for absent keys); the two wire
shapes have identical lookup behaviour. -/
theorem c8_secret_shapes_theorem (m : List (String × String)) (k : String)
    (n : Nat) :
    (∃ d1 : Secret,
      Secret.deserialize
          (.obj [("data", encodeMap m), ("lease_duration", .num n)])
        = some d1
      ∧ d1.data.get k = mapLookup m k)
    ∧ (∃ d2 : Secret,
      Secret.deserialize
          (.obj [("data", .obj [("data", encodeMap m)]),
                 ("lease_duration", .num n)])
        = some d2
      ∧ d2.data.get k = mapLookup m k) := by
  constructor
  · refine ⟨⟨.generic m, n⟩, ?_, rfl⟩
    simp [Secret.deserialize, SecretData.deserialize, decodeStringMap,
      encodeMap, decodeFields_encode, mapLookup]
  · refine ⟨⟨.kvv2 m, n⟩, ?_, rfl⟩
    simp [Secret.deserialize, SecretData.deserialize, decodeStringMap,
      encodeMap, decodeFields_encode, mapLookup, decodeFields]

/-! Claim C9: the client facade passes successes through and wraps
failures with the credential name. -/

/-- C9: for every credential name n and file path p, the facade's var and
file return the chained backend's success value unchanged, and on chain
failure return a credential-level error naming n (respectively p) and
carrying the backend error as its cause. -/
theorem c9_facade_theorem (bs : List (Except Error String))
    (name path : String) :
    (∀ v, (chained_var bs).1 = .ok v → client_var bs name = .ok v)
    ∧ (∀ e, (chained_var bs).1 = .error e →
        client_var bs name = .error (.credential name e))
    ∧ (∀ v, (chained_file bs).1 = .ok v → client_file bs path = .ok v)
    ∧ (∀ e, (chained_file bs).1 = .error e →
        client_file bs path = .error (.credential path e)) := by
  refine ⟨fun v h => ?_, fun e h => ?_, fun v h => ?_, fun e h => ?_⟩ <;>
    simp [client_var, client_file, h, Except.mapError]

/-- Witness for C9 at concrete chains. -/
theorem c9_witness :
    client_var [.ok "v"] "NAME" = .ok "v"
    ∧ client_var [.error (.other "boom")] "NAME"
        = .error (.credential "NAME" (.other "boom"))
    ∧ client_file [.error (.other "boom")] "p.txt"
        = .error (.credential "p.txt" (.other "boom")) :=
  ⟨(c9_facade_theorem [.ok "v"] "NAME" "p.txt").1 "v" rfl,
   (c9_facade_theorem [.error (.other "boom")] "NAME" "p.txt").2.1
     (.other "boom") rfl,
   (c9_facade_theorem [.error (.other "boom")] "NAME" "p.txt").2.2.2
     (.other "boom") rfl⟩

/-! Claim C7: default chain construction. -/

/-- C7: with_default_backends produces [env, vault] when Vault is enabled
(VAULT_ADDR present) and override is allowed, [vault] when enabled and
override is not allowed, and [env] alone when Vault is not enabled;
enabledness is exactly the presence of VAULT_ADDR. -/
theorem c7_default_backends_theorem (addr : Option String) (ao : Bool)
    (ctor : Except Error Unit) (hc : ctor = .ok ()) :
    (is_enabled addr = addr.isSome)
    ∧ (is_enabled addr = true → ao = true →
        with_default_backends addr ao ctor = .ok [.envvar, .vault])
    ∧ (is_enabled addr = true → ao = false →
        with_default_backends addr ao ctor = .ok [.vault])
    ∧ (is_enabled addr = false →
        with_default_backends addr ao ctor = .ok [.envvar]) := by
  subst hc
  refine ⟨rfl, fun he hao => ?_, fun he hao => ?_, fun he => ?_⟩
  · subst hao
    simp [with_default_backends, he]
  · subst hao
    simp [with_default_backends, he]
  · simp [with_default_backends, he]

/-- Witness for C7 at concrete configurations. -/
theorem c7_witness :
    with_default_backends (some "http://vault:8200") true (.ok ())
      = .ok [.envvar, .vault]
    ∧ with_default_backends (some "http://vault:8200") false (.ok ())
      = .ok [.vault]
    ∧ with_default_backends none true (.ok ()) = .ok [.envvar] :=
  ⟨(c7_default_backends_theorem (some "http://vault:8200") true _ rfl).2.1
     rfl rfl,
   (c7_default_backends_theorem (some "http://vault:8200") false _ rfl).2.2.1
     rfl rfl,
   (c7_default_backends_theorem none true _ rfl).2.2.2 rfl⟩

/-! Claim C3: token acquisition priority. -/

/-- C3: default_token takes the explicit VAULT_TOKEN first; otherwise,
when a Kubernetes role is configured and the JWT exchange fails, the
failure is terminal (the home token file is never consulted: the
conclusion holds for every homeDir and readFile) and wrapped as
missing-vault-token; when the exchange succeeds its token is used;
with no role configured the token comes from reading ~/.vault-token; and
every construction failure is a missing-vault-token wrapper around its
cause. -/
theorem c3_token_theorem (envToken role authPathEnv : Option String)
    (jwtResult : Except Error String)
    (authCall : String → String → String → Except Error String)
    (homeDir : Option String) (readFile : String → Except Error String) :
    (∀ t, envToken = some t →
      default_token envToken role authPathEnv jwtResult authCall homeDir
        readFile = .ok t)
    ∧ (∀ e, envToken = none →
      vault_kubernetes_token role authPathEnv jwtResult authCall = .error e →
      default_token envToken role authPathEnv jwtResult authCall homeDir
        readFile = .error (.missingVaultToken e))
    ∧ (∀ tok, envToken = none →
      vault_kubernetes_token role authPathEnv jwtResult authCall
        = .ok (some tok) →
      default_token envToken role authPathEnv jwtResult authCall homeDir
        readFile = .ok tok)
    ∧ (envToken = none → role = none →
      default_token envToken role authPathEnv jwtResult authCall homeDir
        readFile
        = (home_token homeDir readFile).mapError
            (fun e => .missingVaultToken e))
    ∧ (∀ e, default_token envToken role authPathEnv jwtResult authCall
        homeDir readFile = .error e → ∃ e2, e = .missingVaultToken e2) := by
  refine ⟨fun t ht => ?_, fun e he hk => ?_, fun tok he hk => ?_,
    fun he hr => ?_, fun e he => ?_⟩
  · subst ht
    rfl
  · subst he
    simp [default_token, hk, Except.mapError]
  · subst he
    simp [default_token, hk, Except.mapError]
  · subst he
    subst hr
    simp [default_token, vault_kubernetes_token]
  · cases envToken with
    | some t =>
      simp [default_token, Except.mapError] at he
    | none =>
      cases hk : vault_kubernetes_token role authPathEnv jwtResult authCall
        with
      | error e2 =>
        simp [default_token, hk, Except.mapError] at he
        exact ⟨e2, he.symm⟩
      | ok o =>
        cases o with
        | some tok => simp [default_token, hk, Except.mapError] at he
        | none =>
          cases hh : home_token homeDir readFile with
          | error e3 =>
            simp [default_token, hk, hh, Except.mapError] at he
            exact ⟨e3, he.symm⟩
          | ok t => simp [default_token, hk, hh, Except.mapError] at he

/-- Witness for C3 at concrete configurations, exercising all five
conjuncts. -/
theorem c3_witness :
    default_token (some "tkn") (some "r") none (.error (.other "no jwt"))
      (fun _ _ _ => .ok "k8s") (some "/home/u")
      (fun _ => .error (.other "no file")) = .ok "tkn"
    ∧ default_token none (some "r") none (.error (.other "no jwt"))
      (fun _ _ _ => .ok "k8s") (some "/home/u") (fun _ => .ok "filetkn")
      = .error (.missingVaultToken (.other "no jwt"))
    ∧ default_token none (some "r") none (.ok "jwt")
      (fun _ _ _ => .ok "k8s") (some "/home/u") (fun _ => .ok "filetkn")
      = .ok "k8s"
    ∧ default_token none none none (.ok "jwt") (fun _ _ _ => .ok "k8s")
      (some "/home/u") (fun _ => .ok "filetkn")
      = (home_token (some "/home/u") (fun _ => .ok "filetkn")).mapError
          (fun e => .missingVaultToken e)
    ∧ (∃ e2, Error.missingVaultToken (.other "no jwt")
        = .missingVaultToken e2) :=
  ⟨(c3_token_theorem (some "tkn") (some "r") none (.error (.other "no jwt"))
      (fun _ _ _ => .ok "k8s") (some "/home/u")
      (fun _ => .error (.other "no file"))).1 "tkn" rfl,
   (c3_token_theorem none (some "r") none (.error (.other "no jwt"))
      (fun _ _ _ => .ok "k8s") (some "/home/u")
      (fun _ => .ok "filetkn")).2.1 (.other "no jwt") rfl rfl,
   (c3_token_theorem none (some "r") none (.ok "jwt")
      (fun _ _ _ => .ok "k8s") (some "/home/u")
      (fun _ => .ok "filetkn")).2.2.1 "k8s" rfl rfl,
   (c3_token_theorem none none none (.ok "jwt") (fun _ _ _ => .ok "k8s")
      (some "/home/u") (fun _ => .ok "filetkn")).2.2.2.1 rfl rfl,
   (c3_token_theorem none (some "r") none (.error (.other "no jwt"))
      (fun _ _ _ => .ok "k8s") (some "/home/u")
      (fun _ => .ok "filetkn")).2.2.2.2 (.missingVaultToken (.other "no jwt"))
     ((c3_token_theorem none (some "r") none (.error (.other "no jwt"))
        (fun _ _ _ => .ok "k8s") (some "/home/u")
        (fun _ => .ok "filetkn")).2.1 (.other "no jwt") rfl rfl)⟩

/-! Claim C2: chained backend fallback order and error selection. -/

theorem chainedGo_first_ok (pre : List (Except Error String)) (v : String)
    (rest : List (Except Error String)) :
    ∀ (acc : Option Error) (n : Nat), (∀ x ∈ pre, ∃ e, x = .error e) →
    chainedGo (pre ++ .ok v :: rest) acc n = (.ok v, n + (pre.length + 1)) := by
  induction pre with
  | nil =>
    intro acc n _
    simp [chainedGo]
  | cons x xs ih =>
    intro acc n h
    obtain ⟨e, rfl⟩ := h x (List.mem_cons_self x xs)
    simp only [List.cons_append, chainedGo, List.append_eq]
    rw [ih (some e) (n + 1) (fun y hy => h y (List.mem_cons_of_mem _ hy))]
    have : n + 1 + (xs.length + 1) = n + (xs.length + 1 + 1) := by omega
    rw [this]
    rfl

theorem chainedGo_all_err (pre : List (Except Error String)) (e : Error) :
    ∀ (acc : Option Error) (n : Nat), (∀ x ∈ pre, ∃ e2, x = .error e2) →
    chainedGo (pre ++ [.error e]) acc n = (.error e, n + (pre.length + 1)) := by
  induction pre with
  | nil =>
    intro acc n _
    simp [chainedGo]
  | cons x xs ih =>
    intro acc n h
    obtain ⟨e2, rfl⟩ := h x (List.mem_cons_self x xs)
    simp only [List.cons_append, chainedGo, List.append_eq]
    rw [ih (some e2) (n + 1) (fun y hy => h y (List.mem_cons_of_mem _ hy))]
    have : n + 1 + (xs.length + 1) = n + (xs.length + 1 + 1) := by omega
    rw [this]
    rfl

/-- C2: the chained var (and file) returns the first backend success in
list order, invoking exactly the backends up to and including it (no later
backend); when every backend fails it returns the last backend's error
after invoking them all; and on an empty backend list it fails with the
distinct no-backend error. -/
theorem c2_chained_theorem (bs : List (Except Error String)) :
    (∀ pre v rest, bs = pre ++ .ok v :: rest →
      (∀ x ∈ pre, ∃ e, x = .error e) →
      chained_var bs = (.ok v, pre.length + 1)
      ∧ chained_file bs = (.ok v, pre.length + 1))
    ∧ (∀ pre e, bs = pre ++ [.error e] →
      (∀ x ∈ pre, ∃ e2, x = .error e2) →
      chained_var bs = (.error e, bs.length)
      ∧ chained_file bs = (.error e, bs.length))
    ∧ (chained_var [] = (.error .noBackend, 0)
      ∧ chained_file [] = (.error .noBackend, 0)) := by
  refine ⟨fun pre v rest hbs h => ?_, fun pre e hbs h => ?_, rfl, rfl⟩
  · subst hbs
    have h1 := chainedGo_first_ok pre v rest none 0 h
    constructor
    · simpa [chained_var] using h1
    · simpa [chained_file] using h1
  · subst hbs
    have h1 := chainedGo_all_err pre e none 0 h
    constructor
    · simpa [chained_var, List.length_append] using h1
    · simpa [chained_file, List.length_append] using h1

/-- Witness for C2 at concrete backend lists. -/
theorem c2_witness :
    chained_var [.error (.other "a"), .ok "v", .error (.other "b")]
      = (.ok "v", 2)
    ∧ chained_var [.error (.other "a"), .error (.other "b")]
      = (.error (.other "b"), 2)
    ∧ chained_var [] = (.error .noBackend, 0) := by
  refine ⟨?_, ?_, ?_⟩
  · exact ((c2_chained_theorem _).1 [.error (.other "a")] "v"
      [.error (.other "b")] rfl
      (by intro x hx; rw [List.mem_singleton] at hx; subst hx
          exact ⟨_, rfl⟩)).1
  · exact ((c2_chained_theorem _).2.1 [.error (.other "a")] (.other "b") rfl
      (by intro x hx; rw [List.mem_singleton] at hx; subst hx
          exact ⟨_, rfl⟩)).1
  · exact (c2_chained_theorem []).2.2.1

/-! Claim C1: the per-path secret cache. -/

theorem get_loc_cached (fetch : String → Except Error Secret) (cache : Cache)
    (s p k : String) (v : Secret) (h : mapLookup cache p = some v) :
    get_loc fetch cache s (some (.pathWithKey p k))
      = (lookup_key v p k, cache, []) := by
  simp [get_loc, h]

theorem get_loc_preserves (fetch : String → Except Error Secret)
    (cache : Cache) (s : String) (loc : Option Location) (p : String)
    (v : Secret) (h : mapLookup cache p = some v) :
    mapLookup (get_loc fetch cache s loc).2.1 p = some v := by
  match loc with
  | none => simpa [get_loc] using h
  | some (.path q) => simpa [get_loc] using h
  | some (.pathWithKey q k) =>
    cases hc : mapLookup cache q with
    | some sec => simpa [get_loc, hc] using h
    | none =>
      have hq : p ≠ q := by
        intro he
        subst he
        rw [hc] at h
        cases h
      cases hf : fetch q with
      | error e => simpa [get_loc, hc, hf] using h
      | ok sec =>
        simp only [get_loc, hc, hf]
        rw [mapLookup_insert_ne cache q p sec hq]
        exact h

theorem get_loc_no_fetch_of_cached (fetch : String → Except Error Secret)
    (cache : Cache) (s : String) (loc : Option Location) (p : String)
    (v : Secret) (h : mapLookup cache p = some v) :
    (get_loc fetch cache s loc).2.2.count p = 0 := by
  match loc with
  | none => simp [get_loc]
  | some (.path q) => simp [get_loc]
  | some (.pathWithKey q k) =>
    cases hc : mapLookup cache q with
    | some sec => simp [get_loc, hc]
    | none =>
      have hq : (q == p) = false := by
        apply beq_eq_false_iff_ne.mpr
        intro he
        subst he
        rw [hc] at h
        cases h
      cases hf : fetch q with
      | error e => simp [get_loc, hc, hf, List.count_cons, hq]
      | ok sec => simp [get_loc, hc, hf, List.count_cons, hq]

theorem run_count_zero (fetch : String → Except Error Secret) (p : String)
    (v : Secret) :
    ∀ (reqs : List (String × Option Location)) (cache : Cache),
    mapLookup cache p = some v →
    ((run_get_locs fetch cache reqs).2.count p) = 0 := by
  intro reqs
  induction reqs with
  | nil =>
    intro cache _
    simp [run_get_locs]
  | cons r rest ih =>
    intro cache h
    obtain ⟨s, loc⟩ := r
    simp only [run_get_locs, List.count_append]
    rw [get_loc_no_fetch_of_cached fetch cache s loc p v h,
      ih _ (get_loc_preserves fetch cache s loc p v h)]

theorem run_count_le_one (fetch : String → Except Error Secret) (p : String)
    (sec : Secret) (hf : fetch p = .ok sec) :
    ∀ (reqs : List (String × Option Location)) (cache : Cache),
    ((run_get_locs fetch cache reqs).2.count p) ≤ 1 := by
  intro reqs
  induction reqs with
  | nil =>
    intro cache
    simp [run_get_locs]
  | cons r rest ih =>
    intro cache
    obtain ⟨s, loc⟩ := r
    simp only [run_get_locs, List.count_append]
    match loc with
    | none => simpa [get_loc] using ih cache
    | some (.path q) => simpa [get_loc] using ih cache
    | some (.pathWithKey q k) =>
      cases hc : mapLookup cache q with
      | some v =>
        simpa [get_loc, hc] using ih cache
      | none =>
        by_cases hq : q = p
        · subst hq
          have h0 := run_count_zero fetch q sec rest (mapInsert cache q sec)
            (mapLookup_insert_self cache q sec)
          simp [get_loc, hc, hf, List.count_cons, h0]
        · have hqb : (q == p) = false := beq_eq_false_iff_ne.mpr hq
          cases hfq : fetch q with
          | error e =>
            simpa [get_loc, hc, hfq, List.count_cons, hqb] using ih cache
          | ok v2 =>
            have hpres := mapLookup_insert_ne cache q p v2 (Ne.symm hq)
            simpa [get_loc, hc, hfq, List.count_cons, hqb]
              using ih (mapInsert cache q v2)

/-- C1, amended: once the secret at a store path p is cached, every later
get_loc for p (with any key) is answered from the cache with no network
fetch and no cache change; and provided the fetch of p succeeds, any
sequence of get_loc resolutions against one backend instance fetches p at
most once, however many distinct keys of that secret are requested.  (The
success hypothesis is needed: a failed fetch is not cached and is retried,
see the counterexample.) -/
theorem c1_cache_theorem (fetch : String → Except Error Secret) (p : String)
    (sec : Secret) (hfetch : fetch p = .ok sec) :
    (∀ (cache : Cache) (s k : String) (v : Secret),
      mapLookup cache p = some v →
      get_loc fetch cache s (some (.pathWithKey p k))
        = (lookup_key v p k, cache, []))
    ∧ ∀ (cache : Cache) (reqs : List (String × Option Location)),
      ((run_get_locs fetch cache reqs).2.count p) ≤ 1 :=
  ⟨fun cache s k v h => get_loc_cached fetch cache s p k v h,
   fun cache reqs => run_count_le_one fetch p sec hfetch reqs cache⟩

/-- Counterexample to C1 as stated: with a backend whose fetch of
secret/foo fails (for example, the network is down), requesting two
distinct keys of that secret issues two network fetches for the same store
path within one backend instance lifetime, because a failed fetch is never
cached. -/
theorem c1_counterexample :
    ¬ (((run_get_locs (fun _ => .error (.other "connection refused")) []
        [("FOO_USERNAME", some (.pathWithKey "secret/foo" "username")),
         ("FOO_PASSWORD", some (.pathWithKey "secret/foo" "password"))]).2.count
        "secret/foo") ≤ 1) := by decide

/-- Witness for C1 at a concrete backend and request sequence. -/
theorem c1_witness :
    get_loc
      (fun q => if q = "secret/foo"
        then .ok ⟨.generic [("username", "u"), ("password", "pw")], 0⟩
        else .error (.other "404"))
      [("secret/foo", ⟨.generic [("username", "u"), ("password", "pw")], 0⟩)]
      "FOO_PASSWORD" (some (.pathWithKey "secret/foo" "password"))
      = (lookup_key ⟨.generic [("username", "u"), ("password", "pw")], 0⟩
          "secret/foo" "password",
         [("secret/foo",
           ⟨.generic [("username", "u"), ("password", "pw")], 0⟩)], [])
    ∧ ((run_get_locs
        (fun q => if q = "secret/foo"
          then .ok ⟨.generic [("username", "u"), ("password", "pw")], 0⟩
          else .error (.other "404"))
        []
        [("FOO_USERNAME", some (.pathWithKey "secret/foo" "username")),
         ("FOO_PASSWORD", some (.pathWithKey "secret/foo" "password"))]).2.count
        "secret/foo") ≤ 1 :=
  ⟨(c1_cache_theorem _ "secret/foo" _ rfl).1 _ "FOO_PASSWORD" "password"
     _ rfl,
   (c1_cache_theorem _ "secret/foo"
     ⟨.generic [("username", "u"), ("password", "pw")], 0⟩ rfl).2 [] _⟩

/-! Claims C5 and C10: entry-line parsing. -/

theorem parseRhs_eq (isf : Bool) (nm path key : List Char)
    (hpne : path ≠ []) (hpS : ∀ c ∈ path, isSolid c = true)
    (hpC : ∀ c ∈ path, c ≠ ':')
    (hkne : key ≠ []) (hkS : ∀ c ∈ key, isSolid c = true) :
    parseRhs isf nm (' ' :: (path ++ ':' :: key))
      = some (some ⟨isf, nm, path, some key⟩) := by
  obtain ⟨p0, ptl, rfl⟩ : ∃ p0 ptl, path = p0 :: ptl := by
    cases path with
    | nil => exact absurd rfl hpne
    | cons a b => exact ⟨a, b, rfl⟩
  have hall : ∀ c ∈ p0 :: (ptl ++ ':' :: key), isSolid c = true := by
    intro c hc
    rcases List.mem_cons.mp hc with hm | hm
    · subst hm
      exact hpS c (List.mem_cons_self c ptl)
    · rcases List.mem_append.mp hm with hm2 | hm2
      · exact hpS c (List.mem_cons_of_mem p0 hm2)
      · rcases List.mem_cons.mp hm2 with hm3 | hm3
        · subst hm3
          decide
        · exact hkS c hm3
  have hp0 : isSpace p0 = false :=
    isSpace_false_of_solid (hpS p0 (List.mem_cons_self p0 ptl))
  have htws : List.takeWhile isSpace (p0 :: (ptl ++ ':' :: key)) = [] :=
    List.takeWhile_cons_of_neg (by simp [hp0])
  have hdws : List.dropWhile isSpace (p0 :: (ptl ++ ':' :: key))
      = p0 :: (ptl ++ ':' :: key) :=
    List.dropWhile_cons_of_neg (by simp [hp0])
  have htsolid := takeWhile_eq_self_of_all hall
  have hdsolid := dropWhile_eq_nil_of_all hall
  have hsplit : splitPathKey (p0 :: (ptl ++ ':' :: key))
      = (p0 :: ptl, some key) := by
    simp [splitPathKey,
      splitTok_append ptl key
        (fun x hx => hpC x (List.mem_cons_of_mem p0 hx)) hkne]
  have e1 : (' ' :: (p0 :: (ptl ++ ':' :: key))).takeWhile isSpace
      = [' '] := by
    rw [List.takeWhile_cons_of_pos (by decide), htws]
  have e2 : (' ' :: (p0 :: (ptl ++ ':' :: key))).dropWhile isSpace
      = p0 :: (ptl ++ ':' :: key) := by
    rw [List.dropWhile_cons_of_pos (by decide), hdws]
  simp [parseRhs, e1, e2, htsolid, hdsolid, hsplit]

theorem parseLine_var (c0 : Char) (ntl path key : List Char)
    (h0 : identStart c0 = true) (h1 : ∀ c ∈ ntl, identChar c = true)
    (hpne : path ≠ []) (hpS : ∀ c ∈ path, isSolid c = true)
    (hpC : ∀ c ∈ path, c ≠ ':')
    (hkne : key ≠ []) (hkS : ∀ c ∈ key, isSolid c = true) :
    parseLine (c0 :: (ntl ++ ' ' :: (path ++ ':' :: key)))
      = some (some ⟨false, c0 :: ntl, path, some key⟩) := by
  have hc0s : isSpace c0 = false := isSpace_false_of_identStart h0
  have hne_hash : c0 ≠ '#' := ne_of_class h0 (by decide)
  have hne_gt : c0 ≠ '>' := ne_of_class h0 (by decide)
  have hdrop : (c0 :: (ntl ++ ' ' :: (path ++ ':' :: key))).dropWhile isSpace
      = c0 :: (ntl ++ ' ' :: (path ++ ':' :: key)) :=
    List.dropWhile_cons_of_neg (by simp [hc0s])
  have htwident :
      List.takeWhile identChar (ntl ++ ' ' :: (path ++ ':' :: key)) = ntl := by
    rw [List.takeWhile_append_of_pos h1,
      List.takeWhile_cons_of_neg (by decide), List.append_nil]
  have hdwident :
      List.dropWhile identChar (ntl ++ ' ' :: (path ++ ':' :: key))
        = ' ' :: (path ++ ':' :: key) := by
    rw [List.dropWhile_append_of_pos h1,
      List.dropWhile_cons_of_neg (by decide)]
  have hblank :
      ¬((c0 :: (ntl ++ ' ' :: (path ++ ':' :: key))).dropWhile isSpace = []
        ∨ ((c0 :: (ntl ++ ' ' :: (path ++ ':' :: key))).dropWhile
            isSpace).head? = some '#') := by
    rw [hdrop]
    rintro (habs | habs)
    · exact List.cons_ne_nil _ _ habs
    · rw [List.head?_cons, Option.some_inj] at habs
      exact hne_hash habs
  simp only [parseLine]
  rw [if_neg hblank]
  rw [if_neg hne_gt, if_pos h0, htwident, hdwident]
  exact parseRhs_eq false (c0 :: ntl) path key hpne hpS hpC hkne hkS

theorem parseLine_file (nm path key : List Char)
    (hnne : nm ≠ []) (hnS : ∀ c ∈ nm, isSolid c = true)
    (hpne : path ≠ []) (hpS : ∀ c ∈ path, isSolid c = true)
    (hpC : ∀ c ∈ path, c ≠ ':')
    (hkne : key ≠ []) (hkS : ∀ c ∈ key, isSolid c = true) :
    parseLine ('>' :: (nm ++ ' ' :: (path ++ ':' :: key)))
      = some (some ⟨true, nm, path, some key⟩) := by
  have hdrop : ('>' :: (nm ++ ' ' :: (path ++ ':' :: key))).dropWhile isSpace
      = '>' :: (nm ++ ' ' :: (path ++ ':' :: key)) :=
    List.dropWhile_cons_of_neg (by decide)
  have htwsolid :
      List.takeWhile isSolid (nm ++ ' ' :: (path ++ ':' :: key)) = nm := by
    rw [List.takeWhile_append_of_pos hnS,
      List.takeWhile_cons_of_neg (by decide), List.append_nil]
  have hdwsolid :
      List.dropWhile isSolid (nm ++ ' ' :: (path ++ ':' :: key))
        = ' ' :: (path ++ ':' :: key) := by
    rw [List.dropWhile_append_of_pos hnS,
      List.dropWhile_cons_of_neg (by decide)]
  have hblank :
      ¬(('>' :: (nm ++ ' ' :: (path ++ ':' :: key))).dropWhile isSpace = []
        ∨ (('>' :: (nm ++ ' ' :: (path ++ ':' :: key))).dropWhile
            isSpace).head? = some '#') := by
    rw [hdrop]
    rintro (habs | habs)
    · exact List.cons_ne_nil _ _ habs
    · rw [List.head?_cons, Option.some_inj] at habs
      exact absurd habs (by decide)
  simp only [parseLine]
  rw [if_neg hblank]
  rw [if_pos trivial, htwsolid, hdwsolid, if_neg hnne]
  exact parseRhs_eq true nm path key hpne hpS hpC hkne hkS

/-- C5: for every parsed variable line NAME path-colon-key (NAME an
identifier, path a colon-free non-space token, key a non-space token), the
path is environment-interpolated while the key is taken literally: the
resulting Secretfile maps NAME to PathWithKey(interpolated path, key). -/
theorem c5_var_line_theorem (env : String → Option String) (c0 : Char)
    (ntl path key : List Char)
    (h0 : identStart c0 = true) (h1 : ∀ c ∈ ntl, identChar c = true)
    (hpne : path ≠ []) (hpS : ∀ c ∈ path, isSolid c = true)
    (hpC : ∀ c ∈ path, c ≠ ':')
    (hkne : key ≠ []) (hkS : ∀ c ∈ key, isSolid c = true)
    (p' : String) (hint : interpolate_env env path = .ok p') :
    ∃ sf, read_internal env [(c0 :: ntl) ++ ' ' :: (path ++ ':' :: key)]
        = .ok sf
      ∧ secretfile_var sf (String.mk (c0 :: ntl))
        = some (.pathWithKey p' (String.mk key)) := by
  refine ⟨⟨[(String.mk (c0 :: ntl), .pathWithKey p' (String.mk key))], []⟩,
    ?_, ?_⟩
  · simp [read_internal, read_lines,
      parseLine_var c0 ntl path key h0 h1 hpne hpS hpC hkne hkS, hint,
      mapInsert]
  · simp [secretfile_var, mapLookup]

/-- Witness for C5: with X=bar in the environment, parsing the line
FOO_USERNAME secret/$X:username yields
var(FOO_USERNAME) = PathWithKey(secret/bar, username). -/
theorem c5_witness :
    ∃ sf, read_internal (fun v => if v = "X" then some "bar" else none)
        ["FOO_USERNAME secret/$X:username".data] = .ok sf
      ∧ secretfile_var sf "FOO_USERNAME"
        = some (.pathWithKey "secret/bar" "username") :=
  c5_var_line_theorem (fun v => if v = "X" then some "bar" else none)
    'F' "OO_USERNAME".data "secret/$X".data "username".data
    (by decide) (by decide) (by decide) (by decide) (by decide) (by decide)
    (by decide) "secret/bar" rfl

/-- C10: when a Secretfile text has two valid lines defining the same
variable name (or the same interpolated file path), parsing succeeds and
lookup returns the Location of the later line: the later definition
silently overwrites the earlier one.  Stated for a var pair and a file
pair sharing one right-hand-side shape. -/
theorem c10_overwrite_theorem (env : String → Option String) (c0 : Char)
    (ntl nm path1 key1 path2 key2 : List Char)
    (h0 : identStart c0 = true) (h1 : ∀ c ∈ ntl, identChar c = true)
    (hnne : nm ≠ []) (hnS : ∀ c ∈ nm, isSolid c = true)
    (hp1ne : path1 ≠ []) (hp1S : ∀ c ∈ path1, isSolid c = true)
    (hp1C : ∀ c ∈ path1, c ≠ ':')
    (hk1ne : key1 ≠ []) (hk1S : ∀ c ∈ key1, isSolid c = true)
    (hp2ne : path2 ≠ []) (hp2S : ∀ c ∈ path2, isSolid c = true)
    (hp2C : ∀ c ∈ path2, c ≠ ':')
    (hk2ne : key2 ≠ []) (hk2S : ∀ c ∈ key2, isSolid c = true)
    (p1 p2 f : String)
    (hi1 : interpolate_env env path1 = .ok p1)
    (hi2 : interpolate_env env path2 = .ok p2)
    (hif : interpolate_env env nm = .ok f) :
    (∃ sf, read_internal env
        [(c0 :: ntl) ++ ' ' :: (path1 ++ ':' :: key1),
         (c0 :: ntl) ++ ' ' :: (path2 ++ ':' :: key2)] = .ok sf
      ∧ secretfile_var sf (String.mk (c0 :: ntl))
        = some (.pathWithKey p2 (String.mk key2)))
    ∧ (∃ sf, read_internal env
        ['>' :: (nm ++ ' ' :: (path1 ++ ':' :: key1)),
         '>' :: (nm ++ ' ' :: (path2 ++ ':' :: key2))] = .ok sf
      ∧ secretfile_file sf f
        = some (.pathWithKey p2 (String.mk key2))) := by
  constructor
  · refine ⟨⟨[(String.mk (c0 :: ntl), .pathWithKey p2 (String.mk key2))],
      []⟩, ?_, ?_⟩
    · simp [read_internal, read_lines,
        parseLine_var c0 ntl path1 key1 h0 h1 hp1ne hp1S hp1C hk1ne hk1S,
        parseLine_var c0 ntl path2 key2 h0 h1 hp2ne hp2S hp2C hk2ne hk2S,
        hi1, hi2, mapInsert]
    · simp [secretfile_var, mapLookup]
  · refine ⟨⟨[], [(f, .pathWithKey p2 (String.mk key2))]⟩, ?_, ?_⟩
    · simp [read_internal, read_lines,
        parseLine_file nm path1 key1 hnne hnS hp1ne hp1S hp1C hk1ne hk1S,
        parseLine_file nm path2 key2 hnne hnS hp2ne hp2S hp2C hk2ne hk2S,
        hi1, hi2, hif, mapInsert]
    · simp [secretfile_file, mapLookup]

/-- Witness for C10 at a concrete duplicated variable and file entry. -/
theorem c10_witness :
    (∃ sf, read_internal (fun _ => some "v")
        ["FOO a/b:k1".data, "FOO c/d:k2".data] = .ok sf
      ∧ secretfile_var sf "FOO" = some (.pathWithKey "c/d" "k2"))
    ∧ (∃ sf, read_internal (fun _ => some "v")
        [">out.pem a/b:k1".data, ">out.pem c/d:k2".data] = .ok sf
      ∧ secretfile_file sf "out.pem"
        = some (.pathWithKey "c/d" "k2")) :=
  c10_overwrite_theorem (fun _ => some "v") 'F' "OO".data "out.pem".data
    "a/b".data "k1".data "c/d".data "k2".data
    (by decide) (by decide) (by decide) (by decide) (by decide) (by decide)
    (by decide) (by decide) (by decide) (by decide) (by decide) (by decide)
    (by decide) (by decide)
    "a/b" "c/d" "out.pem" rfl rfl rfl

/-! Claim C4: interpolation is all-or-nothing and names an undefined
variable. -/

theorem scanChar_eq (c : Char) (r : ScanResult) :
    scanChar c r = (c :: r.1, r.2.1, r.2.2) := by
  rcases r with ⟨o, rf, u⟩
  rfl

theorem scanStep_some (env : String → Option String) (name : String)
    (v : String) (r : ScanResult) (h : env name = some v) :
    scanStep env name r = (v.data ++ r.1, name :: r.2.1, r.2.2) := by
  rcases r with ⟨o, rf, u⟩
  simp [scanStep, h]

theorem scanStep_none (env : String → Option String) (name : String)
    (r : ScanResult) (h : env name = none) :
    scanStep env name r = (r.1, name :: r.2.1, name :: r.2.2) := by
  rcases r with ⟨o, rf, u⟩
  simp [scanStep, h]

theorem scanToken_length_le (cs : List Char) (name : String)
    (after : List Char) (h : scanToken cs = some (name, after)) :
    after.length ≤ cs.length := by
  match cs with
  | [] => simp [scanToken] at h
  | c :: cs2 =>
    by_cases h1 : identStart c = true
    · simp only [scanToken, h1, if_true] at h
      rw [Option.some.injEq, Prod.mk.injEq] at h
      rw [← h.2]
      exact Nat.le_trans (length_dropWhile_le identChar cs2)
        (Nat.le_succ _)
    · by_cases h2 : c = '{'
      · subst h2
        match cs2 with
        | [] => simp [scanToken, h1] at h
        | c2 :: cs3 =>
          by_cases h3 : identStart c2 = true
          · cases hd : cs3.dropWhile identChar with
            | nil => simp [scanToken, h1, h3, hd] at h
            | cons d after2 =>
              by_cases h4 : d = '}'
              · subst h4
                simp [scanToken, h1, h3, hd] at h
                obtain ⟨h5, h6⟩ := h
                subst h6
                have hlen := length_dropWhile_le identChar cs3
                rw [hd] at hlen
                simp only [List.length_cons] at hlen ⊢
                omega
              · simp [scanToken, h1, h3, hd, h4] at h
          · simp [scanToken, h1, h3] at h
      · simp [scanToken, h1, h2] at h

theorem scanF_undefs_eq (env : String → Option String) :
    ∀ (fuel : Nat) (cs : List Char), cs.length ≤ fuel →
    (scanF env fuel cs).2.2
      = (scanF env fuel cs).2.1.filter (fun n => (env n).isNone) := by
  intro fuel
  induction fuel with
  | zero =>
    intro cs _
    simp [scanF]
  | succ fuel ih =>
    intro cs h
    match cs with
    | [] => simp [scanF]
    | c :: rest =>
      have hr : rest.length ≤ fuel := by
        simp only [List.length_cons] at h
        omega
      by_cases hc : c = '$'
      · subst hc
        cases ht : scanToken rest with
        | none =>
          simp [scanF, ht, scanChar_eq, ih rest hr]
        | some pr =>
          obtain ⟨name, after⟩ := pr
          have ha : after.length ≤ fuel :=
            Nat.le_trans (scanToken_length_le rest name after ht) hr
          have ihr := ih after ha
          cases he : env name with
          | some v =>
            simp [scanF, ht, scanStep_some env name v _ he, he, ihr]
          | none =>
            simp [scanF, ht, scanStep_none env name _ he, he, ihr]
      · simp [scanF, hc, scanChar_eq, ih rest hr]

/-- C4: interpolation fails exactly when some referenced variable is
undefined, and then the error names an undefined referenced variable and
no partially substituted string is returned (the result is a single
Except); when every referenced variable is defined it succeeds; and a
defined `$NAME` or braced-name token is replaced by the variable's
value. -/
theorem c4_interpolation_theorem (env : String → Option String)
    (text : List Char) :
    ((∃ n, n ∈ refsOf env text ∧ env n = none) →
      ∃ m, m ∈ refsOf env text ∧ env m = none ∧
        interpolate_env env text
          = .error (.undefinedEnvironmentVariable m))
    ∧ ((∀ n, n ∈ refsOf env text → (env n).isSome) →
      ∃ s, interpolate_env env text = .ok s)
    ∧ (∀ e, interpolate_env env text = .error e →
      ∃ m, e = .undefinedEnvironmentVariable m ∧ m ∈ refsOf env text ∧
        env m = none)
    ∧ (∀ (c : Char) (tl : List Char) (v : String),
      identStart c = true → (∀ x ∈ tl, identChar x = true) →
      env (String.mk (c :: tl)) = some v →
      interpolate_env env ('$' :: c :: tl) = .ok v
      ∧ interpolate_env env ('$' :: '{' :: c :: (tl ++ ['}'])) = .ok v) := by
  have hu := scanF_undefs_eq env text.length text (Nat.le_refl _)
  refine ⟨?_, ?_, ?_, ?_⟩
  · rintro ⟨n, hn, hne⟩
    have hmem : n ∈ (scanF env text.length text).2.2 := by
      rw [hu]
      exact List.mem_filter.mpr ⟨hn, by simp [hne]⟩
    obtain ⟨m, hm⟩ : ∃ m, (scanF env text.length text).2.2.getLast? = some m
      := by
      cases hg : (scanF env text.length text).2.2.getLast? with
      | none =>
        rw [List.getLast?_eq_none_iff] at hg
        rw [hg] at hmem
        cases hmem
      | some m => exact ⟨m, rfl⟩
    have hmem2 := List.mem_of_getLast?_eq_some hm
    rw [hu] at hmem2
    obtain ⟨hm1, hm2⟩ := List.mem_filter.mp hmem2
    refine ⟨m, hm1, by simpa using hm2, ?_⟩
    simp [interpolate_env, hm]
  · intro hall
    have hnil : (scanF env text.length text).2.2 = [] := by
      rw [hu]
      apply List.filter_eq_nil_iff.mpr
      intro a ha
      have h2 := hall a ha
      cases he : env a with
      | none => rw [he] at h2; simp at h2
      | some v => simp [he]
    exact ⟨String.mk (scanF env text.length text).1,
      by simp [interpolate_env, hnil]⟩
  · intro e he
    cases hg : (scanF env text.length text).2.2.getLast? with
    | none => simp [interpolate_env, hg] at he
    | some m =>
      simp only [interpolate_env, hg, Except.error.injEq] at he
      have hmem2 := List.mem_of_getLast?_eq_some hg
      rw [hu] at hmem2
      obtain ⟨hm1, hm2⟩ := List.mem_filter.mp hmem2
      exact ⟨m, he.symm, hm1, by simpa using hm2⟩
  · intro c tl v hc htl henv
    have htw := takeWhile_eq_self_of_all htl
    have hdw := dropWhile_eq_nil_of_all htl
    constructor
    · simp [interpolate_env, scanF, scanToken, hc, htw, hdw,
        scanStep_some env (String.mk (c :: tl)) v _ henv]
    · have htw2 : List.takeWhile identChar (tl ++ ['}']) = tl := by
        rw [List.takeWhile_append_of_pos htl,
          List.takeWhile_cons_of_neg (by decide), List.append_nil]
      have hdw2 : List.dropWhile identChar (tl ++ ['}']) = ['}'] := by
        rw [List.dropWhile_append_of_pos htl,
          List.dropWhile_cons_of_neg (by decide)]
      have hbr : identStart '{' = false := by decide
      simp [interpolate_env, scanF, scanToken, hc, hbr, htw2, hdw2,
        scanStep_some env (String.mk (c :: tl)) v _ henv]

/-- Witness for C4: a reference to an undefined variable makes
interpolation fail naming it, and a defined variable is substituted. -/
theorem c4_witness :
    (∃ m, m ∈ refsOf (fun _ => none) "$FOO".data
      ∧ (fun _ => none : String → Option String) m = none
      ∧ interpolate_env (fun _ => none) "$FOO".data
        = .error (.undefinedEnvironmentVariable m))
    ∧ interpolate_env (fun n => if n = "X" then some "bar" else none)
        ('$' :: 'X' :: []) = .ok "bar" :=
  ⟨(c4_interpolation_theorem (fun _ => none) "$FOO".data).1
     ⟨"FOO", by decide, rfl⟩,
   ((c4_interpolation_theorem (fun n => if n = "X" then some "bar" else none)
       "$X".data).2.2.2 'X' [] "bar" (by decide) (by decide) rfl).1⟩

/-! Sanity checks: the model reproduces the crate's own test_parse cases
(src/secretfile.rs lines 285-329) and the documented interpolation
behaviour on concrete inputs. -/

theorem model_interpolation_checks :
    interpolate_env (fun n => if n = "X" then some "bar" else none)
      "secret/$X:username".data = .ok "secret/bar:username"
    ∧ interpolate_env (fun n => if n = "X" then some "bar" else none)
      "a/$\x7bX\x7d_y".data = .ok "a/bar_y"
    ∧ interpolate_env (fun n => if n = "X" then some "bar" else none)
      "a/$Y/b".data = .error (.undefinedEnvironmentVariable "Y")
    ∧ refsOf (fun _ => none) "$A $\x7bB\x7d $$C $\x7bbad".data
      = ["A", "B", "C"] :=
  ⟨rfl, rfl, rfl, by decide⟩

theorem model_test_parse_checks :
    (read_internal (fun n => if n = "SECRET_NAME" then some "foo" else none)
      ["# This is a comment.".data, "".data,
       "FOO_USERNAME secret/$SECRET_NAME:username".data,
       "FOO_USERNAME2 $\x7bSECRET_NAME\x7d_username".data]).map
      (fun sf => (secretfile_var sf "FOO_USERNAME",
                  secretfile_var sf "FOO_USERNAME2"))
    = .ok (some (.pathWithKey "secret/foo" "username"),
           some (.path "foo_username"))
    ∧ (read_internal (fun n => if n = "SOMEDIR" then some "/home/foo" else none)
      [">$SOMEDIR/.conf/key.pem secret/ssl:key_pem".data]).map
      (fun sf => secretfile_file sf "/home/foo/.conf/key.pem")
    = .ok (some (.pathWithKey "secret/ssl" "key_pem"))
    ∧ read_internal (fun _ => none) ["not a valid + line".data]
      = .error (.parse "not a valid + line") :=
  ⟨rfl, rfl, rfl⟩

theorem model_chained_checks :
    chained_var [.error (.other "a"), .ok "v", .error (.other "b")]
      = (.ok "v", 2)
    ∧ chained_var [.error (.other "a"), .error (.other "b")]
      = (.error (.other "b"), 2)
    ∧ (run_get_locs
      (fun p => if p = "secret/foo"
        then .ok ⟨.generic [("username", "u"), ("password", "pw")], 0⟩
        else .error (.other "404"))
      []
      [("FOO_USERNAME", some (.pathWithKey "secret/foo" "username")),
       ("FOO_PASSWORD", some (.pathWithKey "secret/foo" "password"))]).2
    = ["secret/foo"] :=
  ⟨rfl, rfl, rfl⟩
